import Mathlib

/-!
# Verification of the rvm-8 virtual CPU kernel specification

The repository ships a Rust build script (`src/emulator/build.rs`) that
compiles three C translation units (`../kernel/cpu.c`, `../kernel/bus.c`,
`../kernel/opcodes.c`) into one static library, plus a natural-language
specification of the kernel's architecture (Bus, Opcode Table, CPU core).

The build script is embedded directly.  The kernel C sources are not part
of the supplied material, so the Bus, Opcode Table and CPU core are
modelled from the specification's own words (each such definition carries
a `Modelled from the spec:` doc comment).
-/

namespace RVM8

/-! ## Build script model (src/emulator/build.rs)

`cc::Build::new()` starts with an empty file list, `.file` appends a
translation unit, `.compile name` produces one static library from the
accumulated files.  `println!("cargo:...")` emits a cargo directive. -/

structure CcBuild where
  files : List String
  deriving DecidableEq, Repr

structure StaticLib where
  objects : List String
  libName : String
  deriving DecidableEq, Repr

def CcBuild.new : CcBuild := ⟨[]⟩

def CcBuild.file (b : CcBuild) (f : String) : CcBuild := ⟨b.files ++ [f]⟩

def CcBuild.compile (b : CcBuild) (name : String) : StaticLib := ⟨b.files, name⟩

structure BuildOutput where
  libraries : List StaticLib
  cargoDirectives : List String
  deriving DecidableEq, Repr

/-- The body of `fn main()` in `src/emulator/build.rs`: three `.file` calls,
one `.compile("rvm8_kernel")`, and one `println!` of a cargo directive. -/
def buildMain : BuildOutput :=
  let lib := ((((CcBuild.new).file "../kernel/cpu.c").file
      "../kernel/bus.c").file "../kernel/opcodes.c").compile "rvm8_kernel"
  { libraries := [lib]
    cargoDirectives := ["cargo:rerun-if-changed=../kernel/cpu.h"] }

/-! ## Bus

Modelled from the spec: the kernel C source `kernel/bus.c` is not part of
the supplied material.  The Bus (spec §3, §4.1) is an ordered set of
non-overlapping address ranges, each bound to a flat memory array, a
read-only memory array, or a device callback pair; unmapped reads yield a
configured deterministic fallback value; ignored writes are recorded as
events; device callbacks may mutate device state. -/

/-- An event observable on the Bus: an ignored write (unmapped or
read-only target) or a device callback invocation. -/
inductive BusEvent where
  | writeIgnored (addr : Nat) (value : Nat)
  | deviceRead (base : Nat) (off : Nat)
  | deviceWrite (base : Nat) (off : Nat) (value : Nat)
  deriving DecidableEq, Repr

/-- Backing of an address range: a flat RAM array, a read-only array, or a
device with explicit read/write callbacks over an opaque device state
(here a `Nat`).  A read callback maps (state, offset) to (value, new
state); a write callback maps (state, offset, value) to a new state. -/
inductive Backing where
  | ram (mem : List Nat)
  | rom (mem : List Nat)
  | device (st : Nat) (readFn : Nat → Nat → Nat × Nat)
      (writeFn : Nat → Nat → Nat → Nat)

/-- A contiguous attached address range `[base, base + size)`. -/
structure MemRange where
  base : Nat
  size : Nat
  backing : Backing

/-- Error raised when attaching a range that intersects one already
attached. -/
inductive AttachError where
  | overlapError
  deriving DecidableEq, Repr

structure Bus where
  ranges : List MemRange
  fallback : Nat
  events : List BusEvent

/-- Two half-open ranges `[b1, b1+s1)` and `[b2, b2+s2)` intersect. -/
def rangesOverlap (b1 s1 b2 s2 : Nat) : Bool :=
  b1 < b2 + s2 && b2 < b1 + s1

/-- `addr` lies inside the attached range `r`. -/
def inRange (r : MemRange) (addr : Nat) : Bool :=
  r.base ≤ addr && addr < r.base + r.size

/-- `attach`: registers a range; fails with `overlapError` if it
intersects an already-attached range. -/
def Bus.attach (bus : Bus) (r : MemRange) : Except AttachError Bus :=
  if bus.ranges.any (fun q => rangesOverlap r.base r.size q.base q.size)
  then .error .overlapError
  else .ok { bus with ranges := bus.ranges ++ [r] }

/-- Route a read through the first range containing `addr`; returns the
value, the updated range list (device state may change) and the events of
this operation.  An unmapped address yields the fallback value. -/
def readRanges (addr fallback : Nat) :
    List MemRange → Nat × List MemRange × List BusEvent
  | [] => (fallback, [], [])
  | r :: rs =>
    if inRange r addr then
      match r.backing with
      | .ram mem => (mem.getD (addr - r.base) 0, r :: rs, [])
      | .rom mem => (mem.getD (addr - r.base) 0, r :: rs, [])
      | .device st rf wf =>
        let out := rf st (addr - r.base)
        (out.1, { r with backing := .device out.2 rf wf } :: rs,
          [.deviceRead r.base (addr - r.base)])
    else
      let out := readRanges addr fallback rs
      (out.1, r :: out.2.1, out.2.2)

/-- Route a write through the first range containing `addr`; returns the
updated range list and the events of this operation.  Writes to unmapped
or read-only targets change nothing and record a `writeIgnored` event. -/
def writeRanges (addr val : Nat) :
    List MemRange → List MemRange × List BusEvent
  | [] => ([], [.writeIgnored addr val])
  | r :: rs =>
    if inRange r addr then
      match r.backing with
      | .ram mem =>
        ({ r with backing := .ram (mem.set (addr - r.base) val) } :: rs, [])
      | .rom _ => (r :: rs, [.writeIgnored addr val])
      | .device st rf wf =>
        ({ r with backing := .device (wf st (addr - r.base) val) rf wf } :: rs,
          [.deviceWrite r.base (addr - r.base) val])
    else
      let out := writeRanges addr val rs
      (r :: out.1, out.2)

/-- `read(address)`: returns the byte at `address` together with the
updated Bus (device state and event log may change). -/
def Bus.read (bus : Bus) (addr : Nat) : Nat × Bus :=
  let out := readRanges addr bus.fallback bus.ranges
  (out.1, { bus with ranges := out.2.1, events := bus.events ++ out.2.2 })

/-- `write(address, value)`: routes the write and records any events. -/
def Bus.write (bus : Bus) (addr val : Nat) : Bus :=
  let out := writeRanges addr val bus.ranges
  { bus with ranges := out.1, events := bus.events ++ out.2 }

/-- No attached range contains `addr`. -/
def unmappedAt (rs : List MemRange) (addr : Nat) : Bool :=
  rs.all (fun r => !inRange r addr)

/-- The first range containing `addr` is RAM-backed and `addr` falls
inside its backing array. -/
def ramBackedAt : List MemRange → Nat → Bool
  | [], _ => false
  | r :: rs, addr =>
    if inRange r addr then
      match r.backing with
      | .ram mem => decide (addr - r.base < mem.length)
      | _ => false
    else ramBackedAt rs addr

/-- The first range containing `addr` is read-only. -/
def romBackedAt : List MemRange → Nat → Bool
  | [], _ => false
  | r :: rs, addr =>
    if inRange r addr then
      match r.backing with
      | .rom _ => true
      | _ => false
    else romBackedAt rs addr

/-- The first range containing `addr` is device-backed. -/
def deviceBackedAt : List MemRange → Nat → Bool
  | [], _ => false
  | r :: rs, addr =>
    if inRange r addr then
      match r.backing with
      | .device _ _ _ => true
      | _ => false
    else deviceBackedAt rs addr

/-! ## CPU core and Opcode Table

Modelled from the spec: the kernel C sources `kernel/cpu.c` and
`kernel/opcodes.c` are not part of the supplied material.  The CPU core
(spec §3, §4.3) holds a fixed register file, program counter, flags,
stack pointer, a running/halted/faulted state and a cycle counter.  The
Opcode Table (spec §4.2, §9) is a dense 256-entry array indexed by the
raw 8-bit encoding; the concrete instruction set is left open by the
spec, so the minimal set its test scenarios require is used: NOP
(encoding 0, 1 cycle, advances the program counter by 1), HALT
(encoding 1, 1 cycle) and the explicit illegal-instruction descriptor
for every other encoding. -/

inductive FaultReason where
  | illegalInstruction
  | busFault
  deriving DecidableEq, Repr

inductive CpuState where
  | running
  | halted
  | faulted (reason : FaultReason)
  deriving DecidableEq, Repr

structure Cpu where
  regs : List Nat
  pc : Nat
  flags : Nat
  sp : Nat
  state : CpuState
  cycles : Nat
  deriving DecidableEq, Repr

/-- An opcode handler: given CPU state and Bus, performs the
instruction's effects (advancing the program counter itself) and returns
the cycles consumed. -/
def Handler : Type := Cpu → Bus → Cpu × Bus × Nat

/-- Opcode descriptor: handler plus operand length and base cycle cost. -/
structure Descriptor where
  handler : Handler
  operandLength : Nat
  baseCycles : Nat

def nopHandler : Handler := fun cpu bus =>
  ({ cpu with pc := cpu.pc + 1 }, bus, 1)

def haltHandler : Handler := fun cpu bus =>
  ({ cpu with pc := cpu.pc + 1, state := .halted }, bus, 1)

/-- The illegal-instruction handler: reports a recoverable fault back to
the CPU core, touching no register. -/
def illegalHandler : Handler := fun cpu bus =>
  ({ cpu with state := .faulted .illegalInstruction }, bus, 1)

def nopDesc : Descriptor := ⟨nopHandler, 0, 1⟩
def haltDesc : Descriptor := ⟨haltHandler, 0, 1⟩
def illegalDesc : Descriptor := ⟨illegalHandler, 0, 1⟩

/-- The descriptor bound to a raw encoding value. -/
def descFor (enc : Nat) : Descriptor :=
  if enc = 0 then nopDesc else if enc = 1 then haltDesc else illegalDesc

/-- `build()`: the full dense dispatch table, one entry per 8-bit
encoding, no gaps. -/
def buildTable : List Descriptor :=
  (List.range 256).map descFor

/-- `lookup(encoding)`: O(1) table index into the dense table. -/
def lookup (enc : Nat) : Descriptor :=
  buildTable.getD (enc % 256) illegalDesc

/-- The architecture's reset address. -/
def resetAddress : Nat := 0

/-- `reset()`: program counter to the reset address, registers, flags and
cycle counter to the architecture default, state `running`. -/
def Cpu.reset (_cpu : Cpu) : Cpu :=
  { regs := List.replicate 8 0
    pc := resetAddress
    flags := 0
    sp := 0
    state := .running
    cycles := 0 }

/-- `step()`: on a `running` CPU, fetch the encoding at the program
counter via the Bus, look it up, execute the handler and advance the
cycle counter by the returned cost; returns the updated CPU, Bus, cycles
consumed and resulting state.  On a non-`running` CPU it is a no-op
returning the current state. -/
def Cpu.step (cpu : Cpu) (bus : Bus) : Cpu × Bus × Nat × CpuState :=
  if cpu.state = .running then
    let fetched := bus.read cpu.pc
    let d := lookup (fetched.1 % 256)
    let out := d.handler cpu fetched.2
    let cpu' := { out.1 with cycles := out.1.cycles + out.2.2 }
    (cpu', out.2.1, out.2.2, cpu'.state)
  else (cpu, bus, 0, cpu.state)

/-- Iterate `step` exactly `n` times, accumulating cycles consumed; used
to state that a CPU "reaches a state after consuming k cycles". -/
def stepsTo : Nat → Cpu → Bus → Cpu × Bus × Nat
  | 0, cpu, bus => (cpu, bus, 0)
  | n + 1, cpu, bus =>
    let s := cpu.step bus
    let rest := stepsTo n s.1 s.2.1
    (rest.1, rest.2.1, s.2.2.1 + rest.2.2)

/-- The loop of `run`: keep stepping while cycles consumed are below the
budget and the state is `running`. -/
def runAux : Nat → Cpu → Bus → Nat → Nat → Cpu × Bus × Nat
  | 0, cpu, bus, _, consumed => (cpu, bus, consumed)
  | fuel + 1, cpu, bus, maxCycles, consumed =>
    if consumed < maxCycles then
      if cpu.state = .running then
        let s := cpu.step bus
        runAux fuel s.1 s.2.1 maxCycles (consumed + s.2.2.1)
      else (cpu, bus, consumed)
    else (cpu, bus, consumed)

/-- `run(maxCycles)`: repeatedly steps until the cycle budget is
exhausted or the state becomes non-`running`; returns the cycles actually
consumed and the final state. -/
def run (cpu : Cpu) (bus : Bus) (maxCycles : Nat) : Cpu × Bus × Nat × CpuState :=
  let out := runAux maxCycles cpu bus maxCycles 0
  (out.1, out.2.1, out.2.2, out.1.state)

/-! ## Helper lemmas -/

theorem step_non_running (cpu : Cpu) (bus : Bus) (h : cpu.state ≠ .running) :
    cpu.step bus = (cpu, bus, 0, cpu.state) := by
  unfold Cpu.step
  rw [if_neg h]

theorem lookup_eq_descFor (e : Nat) : lookup e = descFor (e % 256) := by
  have h : e % 256 < 256 := Nat.mod_lt _ (by norm_num)
  have hlen : buildTable.length = 256 := by
    simp [buildTable]
  unfold lookup
  rw [List.getD_eq_getElem _ _ (by rw [hlen]; exact h)]
  simp [buildTable]

theorem lookup_illegal_of_ge (e : Nat) (h : 2 ≤ e % 256) :
    lookup e = illegalDesc := by
  rw [lookup_eq_descFor]
  unfold descFor
  have h0 : e % 256 ≠ 0 := by omega
  have h1 : e % 256 ≠ 1 := by omega
  simp [h0, h1]

theorem lookup_handler_cost (e : Nat) (cpu : Cpu) (bus : Bus) :
    ((lookup e).handler cpu bus).2.2 = 1 := by
  rw [lookup_eq_descFor]
  unfold descFor
  split
  · rfl
  · split <;> rfl

theorem step_running_cost (cpu : Cpu) (bus : Bus) (h : cpu.state = .running) :
    (cpu.step bus).2.2.1 = 1 := by
  unfold Cpu.step
  rw [if_pos h]
  exact lookup_handler_cost _ _ _

theorem stepsTo_non_running (n : Nat) (cpu : Cpu) (bus : Bus)
    (h : cpu.state ≠ .running) : stepsTo n cpu bus = (cpu, bus, 0) := by
  induction n with
  | zero => rfl
  | succ n ih =>
    unfold stepsTo
    rw [step_non_running cpu bus h]
    simp [ih]

theorem runAux_reaches_halted (n : Nat) :
    ∀ (cpu : Cpu) (bus : Bus) (c : Cpu) (b : Bus) (k : Nat),
      stepsTo n cpu bus = (c, b, k) → c.state = .halted →
      ∀ (fuel consumed maxC : Nat), consumed + k < maxC → k + 1 ≤ fuel →
        runAux fuel cpu bus maxC consumed = (c, b, consumed + k) := by
  induction n with
  | zero =>
    intro cpu bus c b k hst hh fuel consumed maxC hlt hfuel
    obtain ⟨rfl, rfl, rfl⟩ : cpu = c ∧ bus = b ∧ 0 = k := by
      simpa [stepsTo, Prod.ext_iff] using hst
    cases fuel with
    | zero => omega
    | succ f =>
      unfold runAux
      rw [if_pos (by omega), if_neg (by simp [hh])]
      simp
  | succ n ih =>
    intro cpu bus c b k hst hh fuel consumed maxC hlt hfuel
    by_cases hrun : cpu.state = .running
    · have hcost : (cpu.step bus).2.2.1 = 1 := step_running_cost cpu bus hrun
      have hst' : stepsTo (n + 1) cpu bus =
          ((stepsTo n (cpu.step bus).1 (cpu.step bus).2.1).1,
           (stepsTo n (cpu.step bus).1 (cpu.step bus).2.1).2.1,
           (cpu.step bus).2.2.1 +
             (stepsTo n (cpu.step bus).1 (cpu.step bus).2.1).2.2) := rfl
      rw [hst'] at hst
      obtain ⟨rfl, rfl, rfl⟩ :
          (stepsTo n (cpu.step bus).1 (cpu.step bus).2.1).1 = c ∧
          (stepsTo n (cpu.step bus).1 (cpu.step bus).2.1).2.1 = b ∧
          (cpu.step bus).2.2.1 +
            (stepsTo n (cpu.step bus).1 (cpu.step bus).2.1).2.2 = k := by
        simpa [Prod.ext_iff] using hst
      cases fuel with
      | zero => omega
      | succ f =>
        unfold runAux
        rw [if_pos (by omega), if_pos hrun]
        have hrec := ih (cpu.step bus).1 (cpu.step bus).2.1
          (stepsTo n (cpu.step bus).1 (cpu.step bus).2.1).1
          (stepsTo n (cpu.step bus).1 (cpu.step bus).2.1).2.1
          (stepsTo n (cpu.step bus).1 (cpu.step bus).2.1).2.2
          rfl hh f (consumed + (cpu.step bus).2.2.1) maxC
          (by omega) (by omega)
        rw [hrec]
        refine congrArg _ (congrArg _ ?_)
        omega
    · rw [stepsTo_non_running (n + 1) cpu bus hrun] at hst
      obtain ⟨rfl, rfl, rfl⟩ : cpu = c ∧ bus = b ∧ 0 = k := by
        simpa [Prod.ext_iff] using hst
      cases fuel with
      | zero => omega
      | succ f =>
        unfold runAux
        rw [if_pos (by omega), if_neg hrun]
        simp

theorem rangesOverlap_symm (b1 s1 b2 s2 : Nat) :
    rangesOverlap b1 s1 b2 s2 = rangesOverlap b2 s2 b1 s1 := by
  simp [rangesOverlap, Bool.and_comm]

theorem attach_ok_ranges (bus bus1 : Bus) (r : MemRange)
    (h : bus.attach r = .ok bus1) : bus1.ranges = bus.ranges ++ [r] := by
  unfold Bus.attach at h
  split at h
  · simp at h
  · cases h
    rfl

theorem attach_mem_overlap (bus : Bus) (q r : MemRange)
    (hq : q ∈ bus.ranges)
    (hov : rangesOverlap r.base r.size q.base q.size = true) :
    bus.attach r = .error .overlapError := by
  unfold Bus.attach
  rw [if_pos]
  exact List.any_eq_true.mpr ⟨q, hq, hov⟩

theorem readRanges_unmapped (addr fb : Nat) (rs : List MemRange)
    (h : unmappedAt rs addr = true) : readRanges addr fb rs = (fb, rs, []) := by
  induction rs with
  | nil => rfl
  | cons r rs ih =>
    simp only [unmappedAt, List.all_cons, Bool.and_eq_true,
      Bool.not_eq_true'] at h
    unfold readRanges
    rw [h.1]
    have := ih (by simpa [unmappedAt] using h.2)
    simp [this]

theorem writeRanges_unmapped (addr val : Nat) (rs : List MemRange)
    (h : unmappedAt rs addr = true) :
    writeRanges addr val rs = (rs, [.writeIgnored addr val]) := by
  induction rs with
  | nil => rfl
  | cons r rs ih =>
    simp only [unmappedAt, List.all_cons, Bool.and_eq_true,
      Bool.not_eq_true'] at h
    unfold writeRanges
    rw [h.1]
    have := ih (by simpa [unmappedAt] using h.2)
    simp [this]

theorem writeRanges_rom (addr val : Nat) (rs : List MemRange)
    (h : romBackedAt rs addr = true) :
    writeRanges addr val rs = (rs, [.writeIgnored addr val]) := by
  induction rs with
  | nil => simp [romBackedAt] at h
  | cons r rs ih =>
    cases hin : inRange r addr with
    | false =>
      have h' : romBackedAt rs addr = true := by
        simpa [romBackedAt, hin] using h
      unfold writeRanges
      rw [hin]
      simp [ih h']
    | true =>
      cases hb : r.backing with
      | ram mem => simp [romBackedAt, hin, hb] at h
      | device st rf wf => simp [romBackedAt, hin, hb] at h
      | rom mem =>
        unfold writeRanges
        rw [hin, hb]
        simp

theorem writeRanges_ram_read (addr val fb : Nat) (rs : List MemRange)
    (h : ramBackedAt rs addr = true) :
    (readRanges addr fb (writeRanges addr val rs).1).1 = val := by
  induction rs with
  | nil => simp [ramBackedAt] at h
  | cons r rs ih =>
    obtain ⟨rb, rsz, rbk⟩ := r
    cases hin : inRange ⟨rb, rsz, rbk⟩ addr with
    | false =>
      have h' : ramBackedAt rs addr = true := by
        simpa [ramBackedAt, hin] using h
      simp [writeRanges, readRanges, hin]
      exact ih h'
    | true =>
      cases rbk with
      | rom mem => simp [ramBackedAt, hin] at h
      | device st rf wf => simp [ramBackedAt, hin] at h
      | ram mem =>
        have hlt : addr - rb < mem.length := by
          simpa [ramBackedAt, hin] using h
        have hin' :
            inRange ⟨rb, rsz, .ram (mem.set (addr - rb) val)⟩ addr = true := by
          simpa [inRange] using hin
        simp [writeRanges, readRanges, hin, hin']
        rw [List.getElem?_eq_getElem (by simpa [List.length_set] using hlt)]
        simp [List.getElem_set_self]

theorem readRanges_device_events (addr fb : Nat) (rs : List MemRange)
    (h : deviceBackedAt rs addr = true) :
    ∃ b o, (readRanges addr fb rs).2.2 = [BusEvent.deviceRead b o] := by
  induction rs with
  | nil => simp [deviceBackedAt] at h
  | cons r rs ih =>
    obtain ⟨rb, rsz, rbk⟩ := r
    cases hin : inRange ⟨rb, rsz, rbk⟩ addr with
    | false =>
      have h' : deviceBackedAt rs addr = true := by
        simpa [deviceBackedAt, hin] using h
      obtain ⟨b, o, he⟩ := ih h'
      refine ⟨b, o, ?_⟩
      unfold readRanges
      rw [hin]
      simpa using he
    | true =>
      cases rbk with
      | ram mem => simp [deviceBackedAt, hin] at h
      | rom mem => simp [deviceBackedAt, hin] at h
      | device st rf wf =>
        refine ⟨rb, addr - rb, ?_⟩
        unfold readRanges
        rw [hin]
        simp

theorem writeRanges_device_events (addr val : Nat) (rs : List MemRange)
    (h : deviceBackedAt rs addr = true) :
    ∃ b o, (writeRanges addr val rs).2 = [BusEvent.deviceWrite b o val] := by
  induction rs with
  | nil => simp [deviceBackedAt] at h
  | cons r rs ih =>
    obtain ⟨rb, rsz, rbk⟩ := r
    cases hin : inRange ⟨rb, rsz, rbk⟩ addr with
    | false =>
      have h' : deviceBackedAt rs addr = true := by
        simpa [deviceBackedAt, hin] using h
      obtain ⟨b, o, he⟩ := ih h'
      refine ⟨b, o, ?_⟩
      unfold writeRanges
      rw [hin]
      simpa using he
    | true =>
      cases rbk with
      | ram mem => simp [deviceBackedAt, hin] at h
      | rom mem => simp [deviceBackedAt, hin] at h
      | device st rf wf =>
        refine ⟨rb, addr - rb, ?_⟩
        unfold writeRanges
        rw [hin]
        simp

end RVM8

namespace RVM8

/-- C2: `step()` on a non-`running` CPU (halted or faulted) is a no-op:
it leaves the CPU (registers, flags, program counter, cycle counter) and
the Bus unchanged, consumes no cycles, and returns the current state. -/
theorem step_non_running_noop (cpu : Cpu) (bus : Bus)
    (h : cpu.state ≠ CpuState.running) :
    cpu.step bus = (cpu, bus, 0, cpu.state) :=
  step_non_running cpu bus h

def haltedCpuW : Cpu := ⟨[3, 4], 5, 1, 2, .halted, 7⟩

def emptyBus : Bus := ⟨[], 0, []⟩

/-- Witness for C2 at a concrete halted CPU and empty Bus. -/
theorem step_non_running_noop_witness :
    haltedCpuW.state ≠ CpuState.running ∧
    haltedCpuW.step emptyBus = (haltedCpuW, emptyBus, 0, haltedCpuW.state) :=
  ⟨by decide, step_non_running_noop haltedCpuW emptyBus (by decide)⟩

/-- C4: `lookup` is total over the dense 256-entry table: the table has
no gaps, each valid encoding (NOP = 0, HALT = 1) maps to its bound
handler's descriptor, and every invalid encoding maps to the explicit
illegal-instruction descriptor, never to a missing entry. -/
theorem lookup_total_dense :
    buildTable.length = 256 ∧
    (∀ i : Fin 256, buildTable.getD i illegalDesc = descFor i) ∧
    lookup 0 = nopDesc ∧ lookup 1 = haltDesc ∧
    ∀ e, 2 ≤ e % 256 → lookup e = illegalDesc := by
  refine ⟨by simp [buildTable], ?_, ?_, ?_, lookup_illegal_of_ge⟩
  · intro i
    have h : (i : Nat) < 256 := i.isLt
    have hlen : buildTable.length = 256 := by simp [buildTable]
    rw [List.getD_eq_getElem _ _ (by rw [hlen]; exact h)]
    simp [buildTable]
  · rw [lookup_eq_descFor]; rfl
  · rw [lookup_eq_descFor]; rfl

/-- Witness for C4 at the concrete invalid encoding 7. -/
theorem lookup_total_dense_witness :
    2 ≤ 7 % 256 ∧ lookup 7 = illegalDesc :=
  ⟨by decide, lookup_total_dense.2.2.2.2 7 (by decide)⟩

/-- C5: `reset()` is idempotent — resetting twice equals resetting once —
and its post-state does not depend on the prior CPU state (so, the Bus
being untouched by `reset`, it depends only on the Bus contents): program
counter at the reset address, default registers and flags, `running`. -/
theorem reset_idempotent (cpu cpu' : Cpu) :
    (cpu.reset).reset = cpu.reset ∧
    cpu.reset = cpu'.reset ∧
    (cpu.reset).pc = resetAddress ∧
    (cpu.reset).state = CpuState.running ∧
    (cpu.reset).regs = List.replicate 8 0 ∧
    (cpu.reset).flags = 0 ∧
    (cpu.reset).cycles = 0 :=
  ⟨rfl, rfl, rfl, rfl, rfl, rfl, rfl⟩

/-- C6: attaching two overlapping ranges in either order makes the second
`attach` call fail with `overlapError` (never a silent merge), and any
`attach` whose range intersects an already-attached range fails. -/
theorem attach_overlap_second_fails (bus bus1 : Bus) (r1 r2 : MemRange)
    (hov : rangesOverlap r1.base r1.size r2.base r2.size = true) :
    (bus.attach r1 = .ok bus1 → bus1.attach r2 = .error .overlapError) ∧
    (bus.attach r2 = .ok bus1 → bus1.attach r1 = .error .overlapError) ∧
    ∀ (bus' : Bus) (q r : MemRange), q ∈ bus'.ranges →
      rangesOverlap r.base r.size q.base q.size = true →
      bus'.attach r = .error .overlapError := by
  refine ⟨?_, ?_, fun bus' q r hq hov' => attach_mem_overlap bus' q r hq hov'⟩
  · intro h
    have hr : r1 ∈ bus1.ranges := by
      rw [attach_ok_ranges bus bus1 r1 h]
      simp
    exact attach_mem_overlap bus1 r1 r2 hr
      (by rw [rangesOverlap_symm]; exact hov)
  · intro h
    have hr : r2 ∈ bus1.ranges := by
      rw [attach_ok_ranges bus bus1 r2 h]
      simp
    exact attach_mem_overlap bus1 r2 r1 hr hov

def ramA : MemRange := ⟨0, 16, .ram (List.replicate 16 0)⟩
def ramB : MemRange := ⟨8, 16, .ram (List.replicate 16 0)⟩
def busA : Bus := ⟨[ramA], 0, []⟩

/-- Witness for C6: attaching `[0,16)` then the overlapping `[8,24)`
makes the second attach fail. -/
theorem attach_overlap_second_fails_witness :
    rangesOverlap ramA.base ramA.size ramB.base ramB.size = true ∧
    busA.attach ramB = .error .overlapError :=
  ⟨by decide,
    (attach_overlap_second_fails emptyBus busA ramA ramB (by decide)).1 rfl⟩

/-- C7: a read of an unmapped address returns the configured fallback
value and fails nothing; a write to an unmapped or read-only target
leaves the address space unchanged and records a `writeIgnored` event. -/
theorem bus_unmapped_fallback_write_ignored (bus : Bus) (addr val : Nat) :
    (unmappedAt bus.ranges addr = true →
      bus.read addr = (bus.fallback, bus) ∧
      (bus.write addr val).ranges = bus.ranges ∧
      (bus.write addr val).events =
        bus.events ++ [BusEvent.writeIgnored addr val]) ∧
    (romBackedAt bus.ranges addr = true →
      (bus.write addr val).ranges = bus.ranges ∧
      (bus.write addr val).events =
        bus.events ++ [BusEvent.writeIgnored addr val]) := by
  constructor
  · intro h
    have hr := readRanges_unmapped addr bus.fallback bus.ranges h
    have hw := writeRanges_unmapped addr val bus.ranges h
    refine ⟨?_, ?_, ?_⟩
    · simp [Bus.read, hr]
    · simp [Bus.write, hw]
    · simp [Bus.write, hw]
  · intro h
    have hw := writeRanges_rom addr val bus.ranges h
    exact ⟨by simp [Bus.write, hw], by simp [Bus.write, hw]⟩

def busC7 : Bus := ⟨[⟨0, 4, .rom [9, 9, 9, 9]⟩], 42, []⟩

/-- Witness for C7: address 100 is unmapped on `busC7` and address 2 is
read-only; both ignored writes are recorded. -/
theorem bus_unmapped_fallback_witness :
    unmappedAt busC7.ranges 100 = true ∧
    romBackedAt busC7.ranges 2 = true ∧
    (busC7.write 100 5).events =
      busC7.events ++ [BusEvent.writeIgnored 100 5] ∧
    (busC7.write 2 5).ranges = busC7.ranges :=
  ⟨by decide, by decide,
    ((bus_unmapped_fallback_write_ignored busC7 100 5).1 (by decide)).2.2,
    ((bus_unmapped_fallback_write_ignored busC7 2 5).2 (by decide)).1⟩

/-- C8: for an address handled by a RAM-backed range, writing a value and
reading the same address back returns that value; for an address handled
by a device-backed range, one Bus read records exactly one device read
callback invocation, and one Bus write exactly one device write callback
invocation. -/
theorem ram_roundtrip_device_once (bus : Bus) (addr val : Nat) :
    (ramBackedAt bus.ranges addr = true →
      ((bus.write addr val).read addr).1 = val) ∧
    (deviceBackedAt bus.ranges addr = true →
      (∃ b o, ((bus.read addr).2).events =
        bus.events ++ [BusEvent.deviceRead b o]) ∧
      ∃ b o, (bus.write addr val).events =
        bus.events ++ [BusEvent.deviceWrite b o val]) := by
  constructor
  · intro h
    have := writeRanges_ram_read addr val bus.fallback bus.ranges h
    simpa [Bus.read, Bus.write] using this
  · intro h
    constructor
    · obtain ⟨b, o, he⟩ := readRanges_device_events addr bus.fallback bus.ranges h
      exact ⟨b, o, by simp [Bus.read, he]⟩
    · obtain ⟨b, o, he⟩ := writeRanges_device_events addr val bus.ranges h
      exact ⟨b, o, by simp [Bus.write, he]⟩

def busRT : Bus := ⟨[⟨16, 16, .ram (List.replicate 16 0)⟩], 42, []⟩
def busDev : Bus :=
  ⟨[⟨0, 4, .device 3 (fun st off => (st + off, st + 1))
      (fun st _ v => st + v)⟩], 0, []⟩

/-- Witness for C8: round-trip of value 7 at RAM address 20, and a single
device-read event for a read at device address 2. -/
theorem ram_roundtrip_device_once_witness :
    ramBackedAt busRT.ranges 20 = true ∧
    ((busRT.write 20 7).read 20).1 = 7 ∧
    deviceBackedAt busDev.ranges 2 = true ∧
    ∃ b o, ((busDev.read 2).2).events =
      busDev.events ++ [BusEvent.deviceRead b o] :=
  ⟨by decide, (ram_roundtrip_device_once busRT 20 7).1 (by decide),
    by decide, ((ram_roundtrip_device_once busDev 2 7).2 (by decide)).1⟩

/-- C1: a CPU that reaches `halted` after consuming k cycles (witnessed
by n applications of `step`), with k < N, makes `run(cpu, N)` return
exactly k cycles consumed together with the `halted` state, and the CPU
and Bus exactly as they were at the halt — no instruction executes past
the halt; `run` itself is the plain repetition of `step` until the budget
is exhausted or the state is non-`running`. -/
theorem run_stops_at_halt (cpu : Cpu) (bus : Bus) (n N : Nat)
    (c : Cpu) (b : Bus) (k : Nat)
    (hsteps : stepsTo n cpu bus = (c, b, k))
    (hhalt : c.state = CpuState.halted) (hk : k < N) :
    run cpu bus N = (c, b, k, CpuState.halted) := by
  have h := runAux_reaches_halted n cpu bus c b k hsteps hhalt N 0 N
    (by omega) (by omega)
  unfold run
  rw [h]
  simp [hhalt]

def demoMem : List Nat := (List.replicate 65536 0).set 1 1
def demoBus : Bus := ⟨[⟨0, 65536, .ram demoMem⟩], 0, []⟩
def demoCpu : Cpu := ⟨List.replicate 8 0, 0, 0, 0, .running, 0⟩
def demoCpuH : Cpu := ⟨List.replicate 8 0, 2, 0, 0, .halted, 2⟩

/-- Witness for C1, the spec's scenario: one 64 KiB RAM range at address
0, NOP at the reset vector, HALT at address 1 — `run(cpu, 100)` returns
`(2, halted)`. -/
theorem run_stops_at_halt_witness :
    stepsTo 2 demoCpu demoBus = (demoCpuH, demoBus, 2) ∧
    demoCpuH.state = CpuState.halted ∧ 2 < 100 ∧
    run demoCpu demoBus 100 = (demoCpuH, demoBus, 2, CpuState.halted) :=
  ⟨rfl, rfl, by omega,
    run_stops_at_halt demoCpu demoBus 2 100 demoCpuH demoBus 2 rfl rfl
      (by omega)⟩

/-- C3: on a `running` CPU whose fetched encoding is not in the
instruction set, `step()` returns the `faulted illegalInstruction` state
without aborting (it is a total function), altering no register
(general-purpose file, flags, stack pointer) other than the program
counter and the fault-record state field — in this model not even the
program counter changes. -/
theorem step_illegal_faults (cpu : Cpu) (bus : Bus)
    (hrun : cpu.state = CpuState.running)
    (hill : 2 ≤ (bus.read cpu.pc).1 % 256) :
    (cpu.step bus).2.2.2 = CpuState.faulted FaultReason.illegalInstruction ∧
    (cpu.step bus).1.state = CpuState.faulted FaultReason.illegalInstruction ∧
    (cpu.step bus).1.regs = cpu.regs ∧
    (cpu.step bus).1.flags = cpu.flags ∧
    (cpu.step bus).1.sp = cpu.sp ∧
    (cpu.step bus).1.pc = cpu.pc := by
  have hl : lookup ((bus.read cpu.pc).1 % 256) = illegalDesc :=
    lookup_illegal_of_ge _ (by omega)
  refine ⟨?_, ?_, ?_, ?_, ?_, ?_⟩ <;>
    simp [Cpu.step, hrun, hl, illegalDesc, illegalHandler]

def illBus : Bus := ⟨[⟨0, 4, .ram [5, 0, 0, 0]⟩], 0, []⟩
def illCpu : Cpu := ⟨List.replicate 8 0, 0, 0, 0, .running, 0⟩

/-- Witness for C3: encoding 5 (not in the instruction set) at the reset
vector faults the CPU and leaves the register file untouched. -/
theorem step_illegal_faults_witness :
    illCpu.state = CpuState.running ∧
    2 ≤ (illBus.read illCpu.pc).1 % 256 ∧
    (illCpu.step illBus).1.state =
      CpuState.faulted FaultReason.illegalInstruction ∧
    (illCpu.step illBus).1.regs = illCpu.regs :=
  ⟨rfl, by decide, (step_illegal_faults illCpu illBus rfl (by decide)).2.1,
    (step_illegal_faults illCpu illBus rfl (by decide)).2.2.1⟩

/-- C9: the build program compiles exactly the three kernel translation
units cpu, bus and opcodes, and links them into exactly one static kernel
library named `rvm8_kernel`. -/
theorem build_compiles_three_units :
    buildMain.libraries =
      [⟨["../kernel/cpu.c", "../kernel/bus.c", "../kernel/opcodes.c"],
        "rvm8_kernel"⟩] ∧
    buildMain.libraries.length = 1 := by
  constructor <;> rfl

/-- C10: the build program emits exactly one rebuild-dependency directive,
naming only the cpu header; no directive names a bus or opcodes header. -/
theorem build_rerun_directive_cpu_header_only :
    buildMain.cargoDirectives = ["cargo:rerun-if-changed=../kernel/cpu.h"] ∧
    buildMain.cargoDirectives.length = 1 ∧
    "cargo:rerun-if-changed=../kernel/bus.h" ∉ buildMain.cargoDirectives ∧
    "cargo:rerun-if-changed=../kernel/opcodes.h" ∉ buildMain.cargoDirectives := by
  refine ⟨rfl, rfl, ?_, ?_⟩ <;> decide

end RVM8
